import Mathlib

/-!
Verification development for the QReminderPlugin repository.

The development shallowly embeds the four source files
(`time_parser.py`, `reminder.py`, `handlers.py`, `plugin.py`) into Lean:

* a `DateTime` structure with proleptic-Gregorian calendar arithmetic models
  the Python `datetime` values the plugin manipulates (local wall clock,
  second precision, as the spec's data model states);
* the natural-language time resolver (`TimeParser`) is embedded as pure
  functions over `List Char`, including the regex searches the source
  performs, with the ambient `datetime.now()` passed explicitly;
* the reminder store, the live-task map and the message handlers are
  embedded as a state machine over association lists, mirroring the
  Python dicts `ReminderManager.reminders` and `ReminderManager.running_tasks`;
* persistence (`save_reminders` / `load_reminders`) is embedded at the level
  of the JSON document tree the `json` library serializes.
-/

set_option maxRecDepth 100000

namespace QReminder

/-! ## Calendar model (Python `datetime` as used by the source) -/

/-- A wall-clock datetime, second precision, mirroring Python `datetime`
(the plugin never uses microseconds or timezones). -/
structure DateTime where
  year : Nat
  month : Nat
  day : Nat
  hour : Nat
  minute : Nat
  second : Nat
deriving DecidableEq, Repr

def isLeap (y : Nat) : Bool :=
  (y % 4 == 0 && y % 100 != 0) || (y % 400 == 0)

def daysInMonth (y m : Nat) : Nat :=
  if m = 2 then (if isLeap y then 29 else 28)
  else if m = 4 ∨ m = 6 ∨ m = 9 ∨ m = 11 then 30
  else 31

def daysInYear (y : Nat) : Nat := if isLeap y then 366 else 365

/-- Days before January 1 of year `y`, counted from the epoch 0001-01-01
(the standard Gregorian day count, as in Python's `date.toordinal`). -/
def daysBeforeYear (y : Nat) : Nat :=
  365 * (y - 1) + (y - 1) / 4 + (y - 1) / 400 - (y - 1) / 100

/-- Days before the first of month `m` within a year `y`
(cumulative month lengths; `f` is February's leap day). -/
def daysBeforeMonth (y : Nat) (m : Nat) : Nat :=
  let f := if isLeap y then 1 else 0
  match m with
  | 0 => 0
  | 1 => 0
  | 2 => 31
  | 3 => 59 + f
  | 4 => 90 + f
  | 5 => 120 + f
  | 6 => 151 + f
  | 7 => 181 + f
  | 8 => 212 + f
  | 9 => 243 + f
  | 10 => 273 + f
  | 11 => 304 + f
  | _ => 334 + f

/-- Python `date.toordinal`: 0001-01-01 has ordinal 1. -/
def ordinalOf (y m d : Nat) : Nat := daysBeforeYear y + daysBeforeMonth y m + d

def DateTime.ordinal (t : DateTime) : Nat := ordinalOf t.year t.month t.day

/-- Python `date.weekday()`: Monday = 0; 0001-01-01 was a Monday. -/
def DateTime.weekday (t : DateTime) : Nat := (t.ordinal - 1) % 7

/-- Advance the calendar date by one day, keeping the time of day. -/
def DateTime.nextDay (t : DateTime) : DateTime :=
  if t.day < daysInMonth t.year t.month then { t with day := t.day + 1 }
  else if t.month < 12 then { t with month := t.month + 1, day := 1 }
  else { t with year := t.year + 1, month := 1, day := 1 }

/-- Python `t + timedelta(days := n)` for a valid `t`. -/
def DateTime.addDays (t : DateTime) : Nat → DateTime
  | 0 => t
  | n + 1 => (DateTime.addDays t n).nextDay

/-- Python `t + timedelta(hours := n)` for a valid `t`. -/
def DateTime.addHours (t : DateTime) (n : Nat) : DateTime :=
  { DateTime.addDays t ((t.hour + n) / 24) with hour := (t.hour + n) % 24 }

/-- Python `t + timedelta(minutes := n)` for a valid `t`. -/
def DateTime.addMinutes (t : DateTime) (n : Nat) : DateTime :=
  DateTime.addHours { t with minute := (t.minute + n) % 60 } ((t.minute + n) / 60)

/-- A mixed-radix key that orders valid datetimes chronologically:
for valid datetimes `a < b` in Python iff `a.key < b.key`. -/
def DateTime.key (t : DateTime) : Nat :=
  ((((t.year * 13 + t.month) * 32 + t.day) * 24 + t.hour) * 60 + t.minute) * 60 + t.second

/-- Python `a < b` on datetimes (valid fields assumed, as everywhere in the source). -/
def DateTime.ltb (a b : DateTime) : Bool := a.key < b.key

def DateTime.leb (a b : DateTime) : Bool := a.key ≤ b.key

/-- Field ranges guaranteed by Python's `datetime` constructor. -/
def DateTime.Valid (t : DateTime) : Prop :=
  1 ≤ t.year ∧ 1 ≤ t.month ∧ t.month ≤ 12 ∧ 1 ≤ t.day ∧
    t.day ≤ daysInMonth t.year t.month ∧ t.hour < 24 ∧ t.minute < 60 ∧ t.second < 60

instance (t : DateTime) : Decidable t.Valid := by
  unfold DateTime.Valid; infer_instance

lemma isLeap_iff (y : Nat) :
    isLeap y = true ↔ ((y % 4 = 0 ∧ y % 100 ≠ 0) ∨ y % 400 = 0) := by
  simp [isLeap]

lemma daysInYear_eq (y : Nat) :
    daysInYear y = 365 + (if (y % 4 = 0 ∧ y % 100 ≠ 0) ∨ y % 400 = 0 then 1 else 0) := by
  unfold daysInYear
  by_cases h : isLeap y
  · rw [if_pos h, if_pos ((isLeap_iff y).1 h)]
  · rw [if_neg h, if_neg (fun hc => h ((isLeap_iff y).2 hc))]

lemma daysBeforeYear_succ (y : Nat) (hy : 1 ≤ y) :
    daysBeforeYear (y + 1) = daysBeforeYear y + daysInYear y := by
  obtain ⟨a, rfl⟩ : ∃ a, y = a + 1 := ⟨y - 1, by omega⟩
  rw [daysInYear_eq]
  unfold daysBeforeYear
  simp only [Nat.add_sub_cancel]
  by_cases c4 : (a + 1) % 4 = 0 <;> by_cases c100 : (a + 1) % 100 = 0 <;>
    by_cases c400 : (a + 1) % 400 = 0
  · rw [if_pos (Or.inr c400)]; omega
  · rw [if_neg (fun h => h.elim (fun hc => hc.2 c100) c400)]; omega
  · rw [if_pos (Or.inr c400)]; omega
  · rw [if_pos (Or.inl ⟨c4, c100⟩)]; omega
  · rw [if_pos (Or.inr c400)]; omega
  · rw [if_neg (fun h => h.elim (fun hc => c4 hc.1) c400)]; omega
  · rw [if_pos (Or.inr c400)]; omega
  · rw [if_neg (fun h => h.elim (fun hc => c4 hc.1) c400)]; omega

lemma daysInMonth_pos (y m : Nat) : 1 ≤ daysInMonth y m := by
  unfold daysInMonth; split_ifs <;> omega

lemma daysInMonth_le (y m : Nat) : daysInMonth y m ≤ 31 := by
  unfold daysInMonth; split_ifs <;> omega

lemma daysBeforeMonth_step (y m : Nat) (h1 : 1 ≤ m) (h2 : m ≤ 11) :
    daysBeforeMonth y (m + 1) = daysBeforeMonth y m + daysInMonth y m := by
  interval_cases m <;> by_cases h : isLeap y <;>
    simp [daysBeforeMonth, daysInMonth, h]

lemma daysBeforeMonth_december (y : Nat) :
    daysBeforeMonth y 12 + daysInMonth y 12 = daysInYear y := by
  by_cases h : isLeap y <;> simp [daysBeforeMonth, daysInMonth, daysInYear, h]

/-- Bundle of facts about `nextDay`: it stays valid, advances the day count
by one, and does not touch the time of day. -/
lemma nextDay_spec (t : DateTime) (h : t.Valid) :
    t.nextDay.Valid ∧ t.nextDay.ordinal = t.ordinal + 1 ∧
      t.nextDay.hour = t.hour ∧ t.nextDay.minute = t.minute ∧
      t.nextDay.second = t.second := by
  obtain ⟨hy, hm1, hm2, hd1, hd2, hh, hmin, hs⟩ := h
  have hpos2 := daysInMonth_pos t.year (t.month + 1)
  have hjan : daysInMonth (t.year + 1) 1 = 31 := by simp [daysInMonth]
  have hdec : daysInMonth t.year 12 = 31 := by simp [daysInMonth]
  unfold DateTime.nextDay
  split_ifs with h1 h2
  · refine ⟨?_, ?_, rfl, rfl, rfl⟩
    · simp only [DateTime.Valid]; omega
    · simp only [DateTime.ordinal, ordinalOf]; omega
  · refine ⟨?_, ?_, rfl, rfl, rfl⟩
    · simp only [DateTime.Valid]; omega
    · simp only [DateTime.ordinal, ordinalOf]
      rw [daysBeforeMonth_step t.year t.month hm1 (by omega)]
      omega
  · have hm12 : t.month = 12 := by omega
    refine ⟨?_, ?_, rfl, rfl, rfl⟩
    · simp only [DateTime.Valid]; omega
    · simp only [DateTime.ordinal, ordinalOf]
      rw [daysBeforeYear_succ t.year hy]
      have htot := daysBeforeMonth_december t.year
      rw [hm12] at hd2 ⊢
      rw [hm12] at h1
      rw [show daysBeforeMonth (t.year + 1) 1 = 0 from rfl]
      omega

lemma addDays_spec (t : DateTime) (h : t.Valid) (n : Nat) :
    (t.addDays n).Valid ∧ (t.addDays n).ordinal = t.ordinal + n ∧
      (t.addDays n).hour = t.hour ∧ (t.addDays n).minute = t.minute ∧
      (t.addDays n).second = t.second := by
  induction n with
  | zero => exact ⟨h, rfl, rfl, rfl, rfl⟩
  | succ k ih =>
    obtain ⟨hv, ho, hh, hm, hs⟩ := ih
    obtain ⟨hv', ho', hh', hm', hs'⟩ := nextDay_spec _ hv
    exact ⟨hv', by simp [DateTime.addDays, ho', ho]; omega,
      by simp [DateTime.addDays, hh', hh],
      by simp [DateTime.addDays, hm', hm],
      by simp [DateTime.addDays, hs', hs]⟩

lemma valid_ordinal_pos (t : DateTime) (h : t.Valid) : 1 ≤ t.ordinal := by
  obtain ⟨-, -, -, hd1, -⟩ := h
  simp only [DateTime.ordinal, ordinalOf]; omega

-- Sanity checks of the calendar model against known dates:
-- 2025-06-08 was a Sunday (weekday 6), 2025-06-14 a Saturday (weekday 5).
example : DateTime.weekday ⟨2025, 6, 8, 14, 0, 0⟩ = 6 := by decide
example : DateTime.weekday ⟨2025, 6, 14, 21, 0, 0⟩ = 5 := by decide
example : DateTime.ordinal ⟨2025, 1, 1, 0, 0, 0⟩ = 739252 := by decide
example : DateTime.addDays ⟨2025, 6, 8, 14, 0, 0⟩ 6 = ⟨2025, 6, 14, 14, 0, 0⟩ := by decide
example : DateTime.addHours ⟨2025, 6, 8, 14, 0, 0⟩ 2 = ⟨2025, 6, 8, 16, 0, 0⟩ := by decide
example : DateTime.addMinutes ⟨2025, 6, 8, 14, 0, 0⟩ 30 = ⟨2025, 6, 8, 14, 30, 0⟩ := by decide

/-! ## String machinery

The source (`time_parser.py`) works with Python `str.replace`, `in`,
`str.strip` and three `re.search` patterns.  These are embedded below as
functions over `List Char`.  The phrases handled by the plugin use ASCII
digits only, so `Char.isDigit` models `\d` faithfully on every input the
claims mention. -/

def digitVal (c : Char) : Nat := c.toNat - 48

def numOf (run : List Char) : Nat := run.foldl (fun a c => a * 10 + digitVal c) 0

/-- Python `pattern in s` (substring containment). -/
def hasSub (pat : List Char) : List Char → Bool
  | [] => List.isPrefixOf pat []
  | c :: rest => List.isPrefixOf pat (c :: rest) || hasSub pat rest

/-- Python `s.replace(pat, rep)` (all non-overlapping occurrences, left to
right, scanning resumes after each replacement); fuel-driven recursion. -/
def replaceAllGo (pat rep : List Char) : Nat → List Char → List Char
  | 0, l => l
  | _ + 1, [] => []
  | fuel + 1, c :: rest =>
    if List.isPrefixOf pat (c :: rest) && !pat.isEmpty then
      rep ++ replaceAllGo pat rep fuel (List.drop (pat.length - 1) rest)
    else c :: replaceAllGo pat rep fuel rest

def replaceAll (pat rep l : List Char) : List Char := replaceAllGo pat rep l.length l

def isWs (c : Char) : Bool := c = ' ' || c = '\t' || c = '\n' || c = '\r'

/-- Python `s.strip()`. -/
def trimChars (l : List Char) : List Char :=
  ((l.dropWhile isWs).reverse.dropWhile isWs).reverse

/-- `re.search(r'(\d+)' ++ suf, s)`: leftmost digit run immediately followed
by `suf`, returning the run's numeric value.  (The suffixes used by the
source all start with a non-digit character, for which this scan is exactly
the Python regex search.) -/
def findNumThenGo (suf : List Char) : Nat → List Char → Option Nat
  | 0, _ => none
  | _ + 1, [] => none
  | fuel + 1, c :: rest =>
    if c.isDigit then
      if List.isPrefixOf suf (rest.dropWhile Char.isDigit) then
        some (numOf (c :: rest.takeWhile Char.isDigit))
      else findNumThenGo suf fuel (rest.dropWhile Char.isDigit)
    else findNumThenGo suf fuel rest

def findNumThen (suf l : List Char) : Option Nat := findNumThenGo suf l.length l

/-- Second half of the permissive time regex `(\d{1,2})[:：]?(\d{1,2})?`:
after the hour group, an optional (full-width) colon and an optional
one-or-two-digit minute group. -/
def afterHour (h : Nat) (l : List Char) : Nat × Option Nat :=
  let l' := if l.head? = some ':' || l.head? = some '：' then l.tail else l
  match l' with
  | d1 :: tl =>
    if d1.isDigit then
      match tl with
      | d2 :: _ =>
        if d2.isDigit then (h, some (10 * digitVal d1 + digitVal d2))
        else (h, some (digitVal d1))
      | [] => (h, some (digitVal d1))
    else (h, none)
  | [] => (h, none)

/-- `re.search(r'(\d{1,2})[:：]?(\d{1,2})?', s)`: leftmost match; the first
digit position always yields a match since everything after the hour group
is optional. -/
def findTime : List Char → Option (Nat × Option Nat)
  | [] => none
  | c :: rest =>
    if c.isDigit then
      match rest with
      | d :: rest2 =>
        if d.isDigit then some (afterHour (10 * digitVal c + digitVal d) rest2)
        else some (afterHour (digitVal c) rest)
      | [] => some (digitVal c, none)
    else findTime rest

/-- Decimal rendering of a number (for `strftime("%Y-%m-%d")`). -/
def renderNatGo : Nat → Nat → List Char
  | 0, _ => []
  | _ + 1, 0 => []
  | fuel + 1, n => Nat.digitChar (n % 10) :: renderNatGo fuel (n / 10)

def renderNat (n : Nat) : List Char :=
  if n = 0 then ['0'] else (renderNatGo n n).reverse

def pad2 (n : Nat) : List Char := if n < 10 then '0' :: renderNat n else renderNat n

/-- `now.strftime("%Y-%m-%d")` as used by `_preprocess_time_string`. -/
def strfYMD (t : DateTime) : List Char :=
  renderNat t.year ++ '-' :: pad2 t.month ++ '-' :: pad2 t.day

-- Quick checks of the regex embeddings.
example : findNumThen "天后".data "3天后".data = some 3 := by decide
example : findNumThen "分钟后".data "30分后".data = none := by decide
example : findTime "周六晚上9点".data = some (9, none) := by decide
example : findTime "14:30开会".data = some (14, some 30) := by decide
example : findTime "2时后".data = some (2, none) := by decide
example : hasSub "周六".data "周六晚上9点".data = true := by decide
example : replaceAll "小时".data "时".data "2小时后".data = "2时后".data := by decide

/-! ## TimeParser (`time_parser.py`)

Each strategy takes the ambient `datetime.now()` explicitly as `now`.
The external `dateparser` library (strategy 4) is not part of this
repository; the whole chain is parameterized by an arbitrary function `dp`
standing for `dateparser.parse`. -/

/-- `_preprocess_time_string`. -/
def preprocessTime (now : DateTime) (s0 : List Char) : List Char :=
  let s1 := trimChars s0
  let s2 := replaceAll "小时".data "时".data s1
  let s3 := replaceAll "分钟".data "分".data s2
  if hasSub "今天".data s3 then replaceAll "今天".data (strfYMD now) s3
  else if hasSub "明天".data s3 then
    replaceAll "明天".data (strfYMD (now.addDays 1)) s3
  else if hasSub "后天".data s3 then
    replaceAll "后天".data (strfYMD (now.addDays 2)) s3
  else s3

/-- The `weekday_map` dict of `_parse_weekday_time`, in insertion order. -/
def weekdayPairs : List (List Char × Nat) :=
  [("周一".data, 0), ("周二".data, 1), ("周三".data, 2), ("周四".data, 3),
   ("周五".data, 4), ("周六".data, 5), ("周日".data, 6),
   ("星期一".data, 0), ("星期二".data, 1), ("星期三".data, 2), ("星期四".data, 3),
   ("星期五".data, 4), ("星期六".data, 5), ("星期日".data, 6),
   ("礼拜一".data, 0), ("礼拜二".data, 1), ("礼拜三".data, 2), ("礼拜四".data, 3),
   ("礼拜五".data, 4), ("礼拜六".data, 5), ("礼拜日".data, 6)]

/-- First weekday name contained in the phrase, in dict order (the source
returns from inside the loop on the first name that is contained and whose
time regex matches; the regex search does not depend on the name, so this
is the first contained name). -/
def findWeekday (s : List Char) : Option Nat :=
  (weekdayPairs.find? (fun p => hasSub p.1 s)).map Prod.snd

/-- `_get_next_weekday` (the source always calls it with `weeks_ahead=0`):
`days_ahead = weekday - now.weekday(); if days_ahead <= 0: days_ahead += 7`. -/
def getNextWeekday (now : DateTime) (wd : Nat) : DateTime :=
  let nd := now.weekday
  now.addDays (if nd < wd then wd - nd else wd + 7 - nd)

/-- `_combine_date_time`: `datetime.combine(date.date(), strptime(f"{hour}:{minute:02d}",
"%H:%M").time())`; `strptime` raises (caught, `None` returned) unless the
hour is 0–23 and the minute 0–59. -/
def combineDateTime (date : DateTime) (h m : Nat) : Option DateTime :=
  if h < 24 ∧ m < 60 then some ⟨date.year, date.month, date.day, h, m, 0⟩ else none

/-- `_parse_weekday_time`. -/
def parseWeekdayTime (now : DateTime) (s : List Char) : Option DateTime :=
  match findWeekday s with
  | none => none
  | some wd =>
    match findTime s with
    | none => none
    | some (h, mo) => combineDateTime (getNextWeekday now wd) h (mo.getD 0)

/-- `_parse_relative_days`: the three offset regexes, tried in
day → hour → minute order, first match wins. -/
def parseRelativeDays (now : DateTime) (s : List Char) : Option DateTime :=
  match findNumThen "天后".data s with
  | some n => combineDateTime (now.addDays n) now.hour now.minute
  | none =>
    match findNumThen "小时后".data s with
    | some n => some (now.addHours n)
    | none =>
      match findNumThen "分钟后".data s with
      | some n => some (now.addMinutes n)
      | none => none

/-- `_parse_specific_time`: extract `H[:MM]`; if that time of day is not
strictly later than `now`'s, roll to the next calendar day. -/
def parseSpecificTime (now : DateTime) (s : List Char) : Option DateTime :=
  match findTime s with
  | none => none
  | some (h, mo) =>
    let m := mo.getD 0
    let target := if h < now.hour ∨ (h = now.hour ∧ m ≤ now.minute)
      then now.addDays 1 else now
    combineDateTime target h m

/-- `_parse_with_dateparser`, with the external library abstracted as `dp`. -/
def dateparserStrat (dp : List Char → Option DateTime) (now : DateTime)
    (s : List Char) : Option DateTime :=
  match dp s with
  | some r => if DateTime.ltb now r then some r else none
  | none => none

/-- `_parse_time_manual`: strip AM/PM markers (`下午`/`晚上` both mean PM),
12-hour conversion, then the same roll-to-tomorrow rule. -/
def parseTimeManual (now : DateTime) (s : List Char) : Option DateTime :=
  let stripped :=
    if hasSub "上午".data s then replaceAll "上午".data [] s
    else if hasSub "下午".data s || hasSub "晚上".data s then
      replaceAll "晚上".data [] (replaceAll "下午".data [] s)
    else s
  let isPm : Option Bool :=
    if hasSub "上午".data s then some false
    else if hasSub "下午".data s || hasSub "晚上".data s then some true
    else none
  match findTime stripped with
  | none => none
  | some (h0, mo) =>
    let m := mo.getD 0
    let h := match isPm with
      | some true => if h0 < 12 then h0 + 12 else h0
      | some false => if h0 = 12 then 0 else h0
      | none => h0
    let target := if h < now.hour ∨ (h = now.hour ∧ m ≤ now.minute)
      then now.addDays 1 else now
    combineDateTime target h m

/-- The strategy list of `parse_time_natural`, in source order. -/
def strategies (dp : List Char → Option DateTime) :
    List (DateTime → List Char → Option DateTime) :=
  [parseWeekdayTime, parseRelativeDays, parseSpecificTime,
   dateparserStrat dp, parseTimeManual]

/-- The driver loop: `for parser in parsers: result = parser(s);
if result and result > datetime.now(): return result`. -/
def tryChain (now : DateTime) :
    List (DateTime → List Char → Option DateTime) → List Char → Option DateTime
  | [], _ => none
  | p :: ps, s =>
    match p now s with
    | some r => if DateTime.ltb now r then some r else tryChain now ps s
    | none => tryChain now ps s

/-- `parse_time_natural`: run the chain on the preprocessed string, and if
every strategy fails, retry the whole chain on the raw string; `None` if
both passes fail. -/
def parseTimeNatural (dp : List Char → Option DateTime) (now : DateTime)
    (s : List Char) : Option DateTime :=
  match tryChain now (strategies dp) (preprocessTime now s) with
  | some r => some r
  | none => tryChain now (strategies dp) s

/-- `dateparser` stand-in for closed evaluations: the strategies before it
already succeed on every concrete phrase evaluated below, so its value is
irrelevant there. -/
def dpNone : List Char → Option DateTime := fun _ => none

-- The 2025-06-08 14:00 (a Sunday) scenario moments used by the claims.
def now0 : DateTime := ⟨2025, 6, 8, 14, 0, 0⟩

example : preprocessTime now0 "2小时后".data = "2时后".data := by decide
example : parseWeekdayTime now0 "周六晚上9点".data = some ⟨2025, 6, 14, 9, 0, 0⟩ := by
  decide
example : parseRelativeDays now0 "3天后".data = some ⟨2025, 6, 11, 14, 0, 0⟩ := by
  decide
example : parseSpecificTime now0 "2时后".data = some ⟨2025, 6, 9, 2, 0, 0⟩ := by decide

/-! ## Association lists

Python dicts keyed by reminder id (`ReminderManager.reminders` and
`ReminderManager.running_tasks`) are embedded as association lists; all
reasoning is phrased through `getVal`. -/

/-- Dict read: `d.get(k)`. -/
def getVal {α : Type} : List (String × α) → String → Option α
  | [], _ => none
  | (k', v) :: rest, k => if k' = k then some v else getVal rest k

/-- Dict write `d[k] = v` (replace if present, append otherwise). -/
def setVal {α : Type} : List (String × α) → String → α → List (String × α)
  | [], k, v => [(k, v)]
  | (k', v') :: rest, k, v =>
    if k' = k then (k, v) :: rest else (k', v') :: setVal rest k v

/-- `update_reminder`: write only when the key is already present. -/
def updVal {α : Type} : List (String × α) → String → α → List (String × α)
  | [], _, _ => []
  | (k', v') :: rest, k, v =>
    if k' = k then (k, v) :: rest else (k', v') :: updVal rest k v

/-- Dict delete `del d[k]` (also `cancel_task`'s removal). -/
def delVal {α : Type} : List (String × α) → String → List (String × α)
  | [], _ => []
  | (k', v') :: rest, k =>
    if k' = k then delVal rest k else (k', v') :: delVal rest k

lemma getVal_setVal_self {α : Type} (l : List (String × α)) (k : String) (v : α) :
    getVal (setVal l k v) k = some v := by
  induction l with
  | nil => simp [setVal, getVal]
  | cons p rest ih =>
    obtain ⟨k', v'⟩ := p
    by_cases h : k' = k <;> simp [setVal, getVal, h, ih]

lemma getVal_setVal_other {α : Type} (l : List (String × α)) (k k' : String)
    (v : α) (h : k ≠ k') : getVal (setVal l k v) k' = getVal l k' := by
  induction l with
  | nil => simp [setVal, getVal, h]
  | cons p rest ih =>
    obtain ⟨k0, v0⟩ := p
    by_cases h0 : k0 = k
    · subst h0; simp [setVal, getVal, h]
    · simp [setVal, h0, getVal, ih]

lemma getVal_updVal_self {α : Type} (l : List (String × α)) (k : String) (v v0 : α)
    (h : getVal l k = some v0) : getVal (updVal l k v) k = some v := by
  induction l with
  | nil => simp [getVal] at h
  | cons p rest ih =>
    obtain ⟨k', v'⟩ := p
    by_cases h0 : k' = k
    · simp [updVal, h0, getVal]
    · simp [getVal, h0] at h
      simp [updVal, h0, getVal, ih h]

lemma getVal_updVal_other {α : Type} (l : List (String × α)) (k k' : String)
    (v : α) (h : k ≠ k') : getVal (updVal l k v) k' = getVal l k' := by
  induction l with
  | nil => simp [updVal]
  | cons p rest ih =>
    obtain ⟨k0, v0⟩ := p
    by_cases h0 : k0 = k
    · subst h0; simp [updVal, getVal, h]
    · simp [updVal, h0, getVal, ih]

lemma getVal_delVal_self {α : Type} (l : List (String × α)) (k : String) :
    getVal (delVal l k) k = none := by
  induction l with
  | nil => simp [delVal, getVal]
  | cons p rest ih =>
    obtain ⟨k', v'⟩ := p
    by_cases h : k' = k <;> simp [delVal, getVal, h, ih]

lemma getVal_delVal_other {α : Type} (l : List (String × α)) (k k' : String)
    (h : k ≠ k') : getVal (delVal l k) k' = getVal l k' := by
  induction l with
  | nil => simp [delVal]
  | cons p rest ih =>
    obtain ⟨k0, v0⟩ := p
    by_cases h0 : k0 = k
    · subst h0; simp [delVal, getVal, h, ih]
    · simp [delVal, h0, getVal, ih]

lemma mem_keys_iff {α : Type} (l : List (String × α)) (x : String) :
    x ∈ l.map Prod.fst ↔ getVal l x ≠ none := by
  induction l with
  | nil => simp [getVal]
  | cons p rest ih =>
    obtain ⟨k0, v0⟩ := p
    by_cases h0 : k0 = x
    · subst h0; simp [getVal]
    · have h0' : x ≠ k0 := Ne.symm h0
      simp [getVal, h0, h0', ih]

lemma keys_setVal {α : Type} (l : List (String × α)) (k : String) (v : α)
    (h : (l.map Prod.fst).Nodup) : ((setVal l k v).map Prod.fst).Nodup := by
  induction l with
  | nil => simp [setVal]
  | cons p rest ih =>
    obtain ⟨k0, v0⟩ := p
    simp only [List.map_cons, List.nodup_cons] at h
    by_cases h0 : k0 = k
    · subst h0
      simpa [setVal] using h
    · simp only [setVal, h0, if_false, List.map_cons, List.nodup_cons]
      refine ⟨?_, ih h.2⟩
      intro hc
      rw [mem_keys_iff, getVal_setVal_other _ _ _ _ (fun h2 => h0 h2.symm),
        ← mem_keys_iff] at hc
      exact h.1 hc

lemma keys_updVal {α : Type} (l : List (String × α)) (k : String) (v : α) :
    (updVal l k v).map Prod.fst = l.map Prod.fst := by
  induction l with
  | nil => simp [updVal]
  | cons p rest ih =>
    obtain ⟨k0, v0⟩ := p
    by_cases h0 : k0 = k
    · subst h0; simp [updVal]
    · simp [updVal, h0, ih]

lemma keys_delVal {α : Type} (l : List (String × α)) (k : String)
    (h : (l.map Prod.fst).Nodup) : ((delVal l k).map Prod.fst).Nodup := by
  induction l with
  | nil => simp [delVal]
  | cons p rest ih =>
    obtain ⟨k0, v0⟩ := p
    simp only [List.map_cons, List.nodup_cons] at h
    by_cases h0 : k0 = k
    · subst h0; simpa [delVal] using ih h.2
    · simp only [delVal, h0, if_false, List.map_cons, List.nodup_cons]
      refine ⟨?_, ih h.2⟩
      intro hc
      rw [mem_keys_iff, getVal_delVal_other _ _ _ (fun h2 => h0 h2.symm),
        ← mem_keys_iff] at hc
      exact h.1 hc

/-! ## Reminder store and scheduler (`reminder.py`, `handlers.py`, `plugin.py`)

A reminder record keeps the fields the claims are about.  `active` is an
`Option Bool` because persisted records may lack the field entirely, in
which case every read in the source uses `reminder_data.get('active', True)`.
`target_time` is stored in the record as a datetime (the source stores the
ISO string and re-parses it with `fromisoformat` at each use; that
round-trip is the identity, so the embedding keeps the datetime). -/

structure ReminderData where
  sender_id : String
  content : String
  target_time : DateTime
  repeat_type : String
  active : Option Bool
deriving DecidableEq, Repr

/-- The shared mutable state: `ReminderManager.reminders` plus the map of
ids to *live* (pending, not yet fired, not cancelled) task handles in
`ReminderManager.running_tasks`; a task entry records the due time its
`asyncio.sleep` delay was derived from. -/
structure PState where
  reminders : List (String × ReminderData)
  tasks : List (String × DateTime)
deriving DecidableEq, Repr

/-- `_schedule_reminder`: `delay = target_time - now`; if `delay <= 0` log
and do nothing, otherwise create the task and `add_task` it. -/
def scheduleReminder (now : DateTime) (id : String) (d : ReminderData)
    (s : PState) : PState :=
  if DateTime.ltb now d.target_time then
    { s with tasks := setVal s.tasks id d.target_time }
  else s

/-- Replies sent by `MessageHandler` (structured; the source sends strings
built from the same branch and content).  `error` is the
`"❌ 操作失败，请重试"` reply of `_toggle_reminder`'s `except` branch. -/
inductive Reply where
  | needId
  | notFound
  | forbidden
  | resumed (content : String)
  | paused (content : String)
  | deleted (content : String)
  | error
deriving DecidableEq, Repr

/-- `MessageHandler._toggle_reminder` (with the reminder id already
extracted from the message text): permission check, flip `active`,
`update_reminder` + save; then, when pausing, `cancel_task` and reply
paused.  When resuming: if `target_time` is still future the source calls
`self._schedule_reminder(...)` — but `MessageHandler` has **no**
`_schedule_reminder` method (it lives on `QReminderPlugin` and the handler
holds no plugin reference), so the attribute access raises
`AttributeError`, caught by the surrounding `except`, which replies with
the failure message; no task is ever created, while the `active=True`
mutation was already saved.  Only when `target_time` has already passed is
the schedule call skipped and the success reply reached. -/
def toggleReminder (now : DateTime) (id sender : String) (active : Bool)
    (s : PState) : PState × Reply :=
  if id = "" then (s, .needId)
  else
    match getVal s.reminders id with
    | none => (s, .notFound)
    | some d =>
      if d.sender_id ≠ sender then (s, .forbidden)
      else
        let d' := { d with active := some active }
        let s' := { s with reminders := updVal s.reminders id d' }
        if active then
          if DateTime.ltb now d'.target_time then (s', .error)
          else (s', .resumed d.content)
        else
          ({ s' with tasks := delVal s'.tasks id }, .paused d.content)

/-- `MessageHandler._handle_delete_reminder`: permission check,
`cancel_task`, `remove_reminder`, save. -/
def deleteReminder (id sender : String) (s : PState) : PState × Reply :=
  if id = "" then (s, .needId)
  else
    match getVal s.reminders id with
    | none => (s, .notFound)
    | some d =>
      if d.sender_id ≠ sender then (s, .forbidden)
      else ({ reminders := delVal s.reminders id, tasks := delVal s.tasks id },
        .deleted d.content)

inductive CreateResult where
  | unresolvable
  | timePast
  | ok (id : String) (t : DateTime)
deriving DecidableEq, Repr

def natStr (n : Nat) : String := String.mk (renderNat n)

/-- `QReminderPlugin.set_reminder_llm` after the time-description cleanup,
parameterized by the outcome of `parse_time_natural` (`parseResult`).
On an unparseable description or a non-future time it returns an error
message without touching the store, saving, or scheduling; otherwise it
generates the id `f"{sender_id}_{int(now.timestamp())}"` (embedded with a
monotone stamp of `now`), adds the record with `active=True`, saves, and
schedules. -/
def setReminderLLM (parseResult : Option DateTime) (now : DateTime)
    (senderId content repeatT : String) (s : PState) : PState × CreateResult :=
  match parseResult with
  | none => (s, .unresolvable)
  | some t =>
    if DateTime.ltb now t then
      let id := senderId ++ "_" ++ natStr now.key
      let d : ReminderData :=
        { sender_id := senderId, content := content, target_time := t,
          repeat_type := repeatT, active := some true }
      let s1 := { s with reminders := setVal s.reminders id d }
      (scheduleReminder now id d s1, .ok id t)
    else (s, .timePast)

/-- The scheduling loop of `QReminderPlugin.initialize`: for every loaded
record with `active` true (defaulting to true when absent), schedule it if
its time is still future, otherwise log and skip.  Only `running_tasks`
(empty at process start) is touched. -/
def replayTasks (now : DateTime) :
    List (String × ReminderData) → List (String × DateTime) →
      List (String × DateTime)
  | [], acc => acc
  | (id, d) :: rest, acc =>
    replayTasks now rest
      (if d.active.getD true && DateTime.ltb now d.target_time then
        setVal acc id d.target_time
      else acc)

def startupReplay (now : DateTime) (rs : List (String × ReminderData)) : PState :=
  { reminders := rs, tasks := replayTasks now rs [] }

/-- The recurrence arithmetic of `_handle_repeat_reminder`: daily `+1` day,
weekly `+7` days, monthly `datetime.replace` to the next month (year
rollover at December); `replace` raises `ValueError` when the day does not
exist in the target month, modeled as `none` (the surrounding
`try/except` catches it). -/
def computeNextTime (repeatT : String) (t : DateTime) : Option DateTime :=
  if repeatT = "每天" then some (t.addDays 1)
  else if repeatT = "每周" then some (t.addDays 7)
  else if repeatT = "每月" then
    if t.month = 12 then some { t with year := t.year + 1, month := 1 }
    else if t.day ≤ daysInMonth t.year (t.month + 1) then
      some { t with month := t.month + 1 }
    else none
  else none

/-- `_handle_repeat_reminder`: compute the next time, `update_reminder` +
save, schedule again; any exception (including the short-month
`ValueError`) is caught and logged, leaving the state unchanged. -/
def handleRepeatReminder (now : DateTime) (id : String) (d : ReminderData)
    (s : PState) : PState :=
  match computeNextTime d.repeat_type d.target_time with
  | none => s
  | some nt =>
    let d' := { d with target_time := nt }
    let s' := { s with reminders := updVal s.reminders id d' }
    scheduleReminder now id d' s'

/-- `_reminder_task` at timer expiry, for the task registered under `id`:
the guard ensures the timer only fires once its due time has elapsed
(`asyncio.sleep(delay)` returned), consuming the live handle.  Then: look
up the record (gone → nothing), deliver (delivery is external), and either
advance the recurrence or delete a one-shot reminder. -/
def fireReminder (now : DateTime) (id : String) (s : PState) : PState :=
  match getVal s.tasks id with
  | none => s
  | some due =>
    if DateTime.ltb now due then s
    else
      let s0 := { s with tasks := delVal s.tasks id }
      match getVal s0.reminders id with
      | none => s0
      | some d =>
        if d.repeat_type ≠ "不重复" then handleRepeatReminder now id d s0
        else { s0 with reminders := delVal s0.reminders id }

/-- The public operations of the service, as exercised through the command
layer and the scheduler. -/
inductive Op where
  | create (parseResult : Option DateTime) (senderId content repeatT : String)
  | del (id sender : String)
  | pause (id sender : String)
  | resume (id sender : String)
  | replay
  | fire (id : String)

def step (now : DateTime) (op : Op) (s : PState) : PState :=
  match op with
  | .create pr sid c rep => (setReminderLLM pr now sid c rep s).1
  | .del id sender => (deleteReminder id sender s).1
  | .pause id sender => (toggleReminder now id sender false s).1
  | .resume id sender => (toggleReminder now id sender true s).1
  | .replay => startupReplay now s.reminders
  | .fire id => fireReminder now id s

/-- Part (a) of the dual-state invariant that actually holds: every live
task handle belongs to a stored record that is active (absent `active`
read as true) and was scheduled for exactly that record's `target_time`. -/
def taskConsistent (s : PState) : Prop :=
  ∀ id due, getVal s.tasks id = some due →
    ∃ r, getVal s.reminders id = some r ∧ r.active.getD true = true ∧
      r.target_time = due

/-- Part (b): every active record whose due time is still in the future has
a (unique — the task map is keyed by id) live task for exactly that time. -/
def activeScheduled (now : DateTime) (s : PState) : Prop :=
  ∀ id r, getVal s.reminders id = some r → r.active.getD true = true →
    DateTime.ltb now r.target_time = true → getVal s.tasks id = some r.target_time

def Inv (now : DateTime) (s : PState) : Prop :=
  taskConsistent s ∧ activeScheduled now s

/-- Python dict keys are unique; the association list mirroring
`ReminderManager.reminders` must carry that. -/
def WF (s : PState) : Prop := (s.reminders.map Prod.fst).Nodup

lemma replayTasks_notmem (now : DateTime) (rs : List (String × ReminderData))
    (acc : List (String × DateTime)) (id : String) (h : getVal rs id = none) :
    getVal (replayTasks now rs acc) id = getVal acc id := by
  induction rs generalizing acc with
  | nil => rfl
  | cons p rest ih =>
    obtain ⟨k, d⟩ := p
    by_cases hk : k = id
    · subst hk; simp [getVal] at h
    · have h' : getVal rest id = none := by simpa [getVal, hk] using h
      simp only [replayTasks]
      rw [ih _ h']
      by_cases hc : (d.active.getD true && DateTime.ltb now d.target_time) = true
      · simp [hc, getVal_setVal_other _ _ _ _ hk]
      · simp [hc]

lemma replayTasks_getVal (now : DateTime) (rs : List (String × ReminderData))
    (acc : List (String × DateTime)) (id : String)
    (hnd : (rs.map Prod.fst).Nodup) :
    getVal (replayTasks now rs acc) id =
      match getVal rs id with
      | some d =>
        if d.active.getD true && DateTime.ltb now d.target_time then
          some d.target_time
        else getVal acc id
      | none => getVal acc id := by
  induction rs generalizing acc with
  | nil => rfl
  | cons p rest ih =>
    obtain ⟨k, d⟩ := p
    simp only [List.map_cons, List.nodup_cons] at hnd
    by_cases hk : k = id
    · subst hk
      have hrest : getVal rest k = none := by
        rcases h : getVal rest k with _ | w
        · rfl
        · exact absurd ((mem_keys_iff _ _).2 (by simp [h])) hnd.1
      simp only [replayTasks, getVal, if_pos rfl]
      rw [replayTasks_notmem now rest _ k hrest]
      by_cases hc : (d.active.getD true && DateTime.ltb now d.target_time) = true
      · simp [hc, getVal_setVal_self]
      · simp [hc]
    · simp only [replayTasks]
      rw [ih _ hnd.2]
      have hck : getVal ((k, d) :: rest) id = getVal rest id := by
        simp [getVal, hk]
      have hacc : getVal (if d.active.getD true && DateTime.ltb now d.target_time
          then setVal acc k d.target_time else acc) id = getVal acc id := by
        by_cases hc : (d.active.getD true && DateTime.ltb now d.target_time) = true
        · simp [hc, getVal_setVal_other _ _ _ _ hk]
        · simp [hc]
      rw [hck]
      cases hr : getVal rest id with
      | some d2 => dsimp only; rw [hacc]
      | none => exact hacc

/-- The status marker of `_handle_list_reminders`:
`"✅" if data.get('active', True) else "⏸️"`. -/
def listMarker (d : ReminderData) : String :=
  if d.active.getD true then "✅" else "⏸️"

/-! ## Persistence (`save_reminders` / `load_reminders`)

`save_reminders` runs `json.dump(self.reminders, f, ...)` and
`load_reminders` runs `self.reminders = json.load(f)`.  The embedding
models the JSON document tree that the external `json` library writes and
parses; every value stored in a reminder dict is a string or a bool, so
the `default=str` fallback of `json.dump` is never invoked and the tree
determines the text file up to the (lossless) JSON text encoding. -/

inductive Json where
  | str (s : String)
  | bool (b : Bool)
  | obj (fields : List (String × Json))

/-- A reminder record exactly as it sits in `reminders.json` /
`ReminderManager.reminders`: the dict built by `set_reminder_llm`
(`target_time` and `created_at` are already ISO strings there), with
`active` optional because old files may predate the field. -/
structure StoredReminder where
  id : String
  sender_id : String
  target_id : String
  target_type : String
  content : String
  target_time : String
  repeat_type : String
  active : Option Bool
  created_at : String
deriving DecidableEq, Repr

/-- The JSON object `json.dump` writes for one record, fields in the dict
insertion order of `set_reminder_llm`. -/
def encodeReminder (r : StoredReminder) : Json :=
  .obj ([("id", .str r.id), ("sender_id", .str r.sender_id),
    ("target_id", .str r.target_id), ("target_type", .str r.target_type),
    ("content", .str r.content), ("target_time", .str r.target_time),
    ("repeat_type", .str r.repeat_type)]
    ++ (match r.active with
        | some b => [("active", Json.bool b)]
        | none => [])
    ++ [("created_at", .str r.created_at)])

def getField : List (String × Json) → String → Option Json
  | [], _ => none
  | (k, j) :: rest, k' => if k = k' then some j else getField rest k'

/-- Read one record dict back (the field reads every consumer of the store
performs on a loaded record). -/
def decodeReminder : Json → Option StoredReminder
  | .obj fs =>
    match getField fs "id", getField fs "sender_id", getField fs "target_id",
      getField fs "target_type", getField fs "content",
      getField fs "target_time", getField fs "repeat_type",
      getField fs "created_at" with
    | some (.str i), some (.str si), some (.str ti), some (.str tk),
        some (.str co), some (.str tt), some (.str rp), some (.str ca) =>
      match getField fs "active" with
      | some (.bool b) => some ⟨i, si, ti, tk, co, tt, rp, some b, ca⟩
      | none => some ⟨i, si, ti, tk, co, tt, rp, none, ca⟩
      | some _ => none
    | _, _, _, _, _, _, _, _ => none
  | _ => none

/-- `save_reminders`: the store serialized as one JSON object keyed by id. -/
def saveStore (rs : List (String × StoredReminder)) : Json :=
  .obj (rs.map fun p => (p.1, encodeReminder p.2))

def decodeEntries : List (String × Json) → Option (List (String × StoredReminder))
  | [] => some []
  | (k, j) :: rest =>
    match decodeReminder j, decodeEntries rest with
    | some r, some rs => some ((k, r) :: rs)
    | _, _ => none

/-- `load_reminders` into a fresh store: parse the document back; on any
failure the source resets the store to `{}` (the `except` branch). -/
def loadStore (j : Json) : List (String × StoredReminder) :=
  match j with
  | .obj fs =>
    match decodeEntries fs with
    | some rs => rs
    | none => []
  | _ => []

lemma decode_encode (r : StoredReminder) : decodeReminder (encodeReminder r) = some r := by
  obtain ⟨i, si, ti, tk, co, tt, rp, a, ca⟩ := r
  cases a <;> rfl

/-! ## Preservation of the dual-state invariant, operation by operation -/

lemma scheduleReminder_reminders (now : DateTime) (id : String) (d : ReminderData)
    (s : PState) : (scheduleReminder now id d s).reminders = s.reminders := by
  unfold scheduleReminder; split_ifs <;> rfl

lemma scheduleReminder_tasks_self (now : DateTime) (id : String) (d : ReminderData)
    (s : PState) :
    getVal (scheduleReminder now id d s).tasks id =
      if DateTime.ltb now d.target_time then some d.target_time
      else getVal s.tasks id := by
  unfold scheduleReminder
  split_ifs with h
  · simp [getVal_setVal_self]
  · rfl

lemma scheduleReminder_tasks_other (now : DateTime) (id : String) (d : ReminderData)
    (s : PState) (id' : String) (h : id ≠ id') :
    getVal (scheduleReminder now id d s).tasks id' = getVal s.tasks id' := by
  unfold scheduleReminder
  split_ifs
  · exact getVal_setVal_other _ _ _ _ h
  · rfl

lemma inv_pause (now : DateTime) (id sender : String) (s : PState)
    (hw : WF s) (hi : Inv now s) :
    Inv now (toggleReminder now id sender false s).1 ∧
      WF (toggleReminder now id sender false s).1 := by
  obtain ⟨hA, hB⟩ := hi
  unfold toggleReminder
  by_cases h0 : id = ""
  · rw [if_pos h0]; exact ⟨⟨hA, hB⟩, hw⟩
  rw [if_neg h0]
  cases hget : getVal s.reminders id with
  | none => exact ⟨⟨hA, hB⟩, hw⟩
  | some d =>
    dsimp only
    by_cases hsend : d.sender_id ≠ sender
    · rw [if_pos hsend]; exact ⟨⟨hA, hB⟩, hw⟩
    rw [if_neg hsend]
    have hwf' :
        WF { s with reminders := updVal s.reminders id { d with active := some false } } := by
      unfold WF at hw ⊢
      rw [keys_updVal]; exact hw
    rw [if_neg (by decide : ¬false = true)]
    dsimp only
    refine ⟨⟨?_, ?_⟩, hwf'⟩
    · intro id' due hdue
      by_cases hii : id = id'
      · subst hii
        rw [getVal_delVal_self] at hdue
        cases hdue
      · rw [getVal_delVal_other _ _ _ hii] at hdue
        obtain ⟨r0, hr0, ha0, htt⟩ := hA id' due hdue
        exact ⟨r0, by rw [getVal_updVal_other _ _ _ _ hii]; exact hr0, ha0, htt⟩
    · intro id' r hr ha hfut
      by_cases hii : id = id'
      · subst hii
        rw [getVal_updVal_self _ _ _ d hget] at hr
        rw [← Option.some.inj hr] at ha
        simp at ha
      · rw [getVal_updVal_other _ _ _ _ hii] at hr
        rw [getVal_delVal_other _ _ _ hii]
        exact hB id' r hr ha hfut

/-- Toggling preserves the task-to-record consistency on its own: pausing
cancels the id's task; resuming touches no task at all (the future branch
dies in the caught `AttributeError` before any scheduler call, the past
branch never schedules), so every surviving task still matches its
record. -/
lemma consistent_toggle (now : DateTime) (id sender : String) (active : Bool)
    (s : PState) (hw : WF s) (hA : taskConsistent s) :
    taskConsistent (toggleReminder now id sender active s).1 ∧
      WF (toggleReminder now id sender active s).1 := by
  unfold toggleReminder
  by_cases h0 : id = ""
  · rw [if_pos h0]; exact ⟨hA, hw⟩
  rw [if_neg h0]
  cases hget : getVal s.reminders id with
  | none => exact ⟨hA, hw⟩
  | some d =>
    dsimp only
    by_cases hsend : d.sender_id ≠ sender
    · rw [if_pos hsend]; exact ⟨hA, hw⟩
    rw [if_neg hsend]
    have hwf' :
        WF { s with reminders := updVal s.reminders id { d with active := some active } } := by
      unfold WF at hw ⊢
      rw [keys_updVal]; exact hw
    cases active with
    | true =>
      rw [if_pos rfl]
      have hres : taskConsistent
          { s with reminders := updVal s.reminders id { d with active := some true } } := by
        intro id' due hdue
        by_cases hii : id = id'
        · subst hii
          obtain ⟨r0, hr0, ha0, htt⟩ := hA id due hdue
          rw [hget] at hr0
          refine ⟨{ d with active := some true },
            getVal_updVal_self _ _ _ d hget, rfl, ?_⟩
          rw [Option.some.inj hr0]
          exact htt
        · obtain ⟨r0, hr0, ha0, htt⟩ := hA id' due hdue
          exact ⟨r0, by rw [getVal_updVal_other _ _ _ _ hii]; exact hr0, ha0, htt⟩
      by_cases hfut : DateTime.ltb now
          ({ d with active := some true } : ReminderData).target_time = true
      · rw [if_pos hfut]
        exact ⟨hres, hwf'⟩
      · rw [if_neg hfut]
        exact ⟨hres, hwf'⟩
    | false =>
      rw [if_neg (by decide : ¬false = true)]
      dsimp only
      refine ⟨?_, hwf'⟩
      intro id' due hdue
      by_cases hii : id = id'
      · subst hii
        rw [getVal_delVal_self] at hdue
        cases hdue
      · rw [getVal_delVal_other _ _ _ hii] at hdue
        obtain ⟨r0, hr0, ha0, htt⟩ := hA id' due hdue
        exact ⟨r0, by rw [getVal_updVal_other _ _ _ _ hii]; exact hr0, ha0, htt⟩

lemma inv_delete (id sender : String) (s : PState) (now : DateTime)
    (hw : WF s) (hi : Inv now s) :
    Inv now (deleteReminder id sender s).1 ∧ WF (deleteReminder id sender s).1 := by
  obtain ⟨hA, hB⟩ := hi
  unfold deleteReminder
  by_cases h0 : id = ""
  · rw [if_pos h0]; exact ⟨⟨hA, hB⟩, hw⟩
  rw [if_neg h0]
  cases hget : getVal s.reminders id with
  | none => exact ⟨⟨hA, hB⟩, hw⟩
  | some d =>
    dsimp only
    by_cases hsend : d.sender_id ≠ sender
    · rw [if_pos hsend]; exact ⟨⟨hA, hB⟩, hw⟩
    rw [if_neg hsend]
    refine ⟨⟨?_, ?_⟩, keys_delVal _ _ hw⟩
    · intro id' due hdue
      by_cases hii : id = id'
      · subst hii
        rw [getVal_delVal_self] at hdue
        cases hdue
      · rw [getVal_delVal_other _ _ _ hii] at hdue
        obtain ⟨r0, hr0, ha0, htt⟩ := hA id' due hdue
        exact ⟨r0, by rw [getVal_delVal_other _ _ _ hii]; exact hr0, ha0, htt⟩
    · intro id' r hr ha hfut
      by_cases hii : id = id'
      · subst hii
        rw [getVal_delVal_self] at hr
        cases hr
      · rw [getVal_delVal_other _ _ _ hii] at hr
        rw [getVal_delVal_other _ _ _ hii]
        exact hB id' r hr ha hfut

lemma inv_create (pr : Option DateTime) (now : DateTime) (sid c rep : String)
    (s : PState) (hw : WF s) (hi : Inv now s) :
    Inv now (setReminderLLM pr now sid c rep s).1 ∧
      WF (setReminderLLM pr now sid c rep s).1 := by
  obtain ⟨hA, hB⟩ := hi
  unfold setReminderLLM
  cases pr with
  | none => exact ⟨⟨hA, hB⟩, hw⟩
  | some t =>
    dsimp only
    by_cases hfut : DateTime.ltb now t = true
    · rw [if_pos hfut]
      dsimp only
      set id0 := sid ++ "_" ++ natStr now.key with hid0
      set d0 : ReminderData :=
        { sender_id := sid, content := c, target_time := t,
          repeat_type := rep, active := some true } with hd0
      refine ⟨⟨?_, ?_⟩, ?_⟩
      · intro id' due hdue
        by_cases hii : id0 = id'
        · subst hii
          rw [scheduleReminder_tasks_self] at hdue
          rw [if_pos hfut] at hdue
          exact ⟨d0, by rw [scheduleReminder_reminders]; exact getVal_setVal_self _ _ _,
            rfl, Option.some.inj hdue⟩
        · rw [scheduleReminder_tasks_other _ _ _ _ _ hii] at hdue
          obtain ⟨r0, hr0, ha0, htt⟩ := hA id' due hdue
          exact ⟨r0, by
            rw [scheduleReminder_reminders, getVal_setVal_other _ _ _ _ hii]
            exact hr0, ha0, htt⟩
      · intro id' r hr ha hf
        by_cases hii : id0 = id'
        · subst hii
          rw [scheduleReminder_reminders, getVal_setVal_self] at hr
          obtain rfl : d0 = r := Option.some.inj hr
          rw [scheduleReminder_tasks_self, if_pos hf]
        · rw [scheduleReminder_reminders, getVal_setVal_other _ _ _ _ hii] at hr
          rw [scheduleReminder_tasks_other _ _ _ _ _ hii]
          exact hB id' r hr ha hf
      · unfold WF
        rw [scheduleReminder_reminders]
        exact keys_setVal _ _ _ hw
    · rw [if_neg hfut]
      exact ⟨⟨hA, hB⟩, hw⟩

lemma inv_replay (now : DateTime) (s : PState) (hw : WF s) :
    Inv now (startupReplay now s.reminders) ∧ WF (startupReplay now s.reminders) := by
  have hchar := fun id => replayTasks_getVal now s.reminders [] id hw
  refine ⟨⟨?_, ?_⟩, hw⟩
  · intro id due hdue
    unfold startupReplay at hdue
    dsimp only at hdue
    rw [hchar id] at hdue
    cases hr : getVal s.reminders id with
    | none =>
      rw [hr] at hdue
      simp [getVal] at hdue
    | some d =>
      rw [hr] at hdue
      dsimp only at hdue
      by_cases hc : (d.active.getD true && DateTime.ltb now d.target_time) = true
      · rw [if_pos hc] at hdue
        simp only [Bool.and_eq_true] at hc
        exact ⟨d, hr, hc.1, Option.some.inj hdue⟩
      · rw [if_neg hc] at hdue
        simp [getVal] at hdue
  · intro id r hr ha hf
    have hr' : getVal s.reminders id = some r := hr
    show getVal (replayTasks now s.reminders []) id = some r.target_time
    rw [hchar id, hr']
    dsimp only
    rw [if_pos (by rw [ha, hf]; rfl)]

lemma inv_fire (now : DateTime) (id : String) (s : PState)
    (hw : WF s) (hi : Inv now s) :
    Inv now (fireReminder now id s) ∧ WF (fireReminder now id s) := by
  obtain ⟨hA, hB⟩ := hi
  unfold fireReminder
  cases htask : getVal s.tasks id with
  | none => exact ⟨⟨hA, hB⟩, hw⟩
  | some due =>
    dsimp only
    by_cases hlt : DateTime.ltb now due = true
    · rw [if_pos hlt]; exact ⟨⟨hA, hB⟩, hw⟩
    rw [if_neg hlt]
    obtain ⟨r0, hr0, ha0, htt0⟩ := hA id due htask
    have hA0 : taskConsistent { s with tasks := delVal s.tasks id } := by
      intro id' due' hdue'
      by_cases hii : id = id'
      · subst hii; rw [getVal_delVal_self] at hdue'; cases hdue'
      · rw [getVal_delVal_other _ _ _ hii] at hdue'
        exact hA id' due' hdue'
    cases hget : getVal s.reminders id with
    | none => rw [hget] at hr0; cases hr0
    | some d =>
      have hd : d = r0 := by rw [hget] at hr0; exact Option.some.inj hr0
      subst hd
      dsimp only
      by_cases hrep : d.repeat_type ≠ "不重复"
      · rw [if_pos hrep]
        unfold handleRepeatReminder
        cases hnext : computeNextTime d.repeat_type d.target_time with
        | none =>
          dsimp only
          refine ⟨⟨hA0, ?_⟩, hw⟩
          intro id' r hr ha hf
          by_cases hii : id = id'
          · subst hii
            rw [hget] at hr
            rw [← Option.some.inj hr] at hf
            rw [htt0] at hf
            rw [hf] at hlt
            cases hlt rfl
          · rw [getVal_delVal_other _ _ _ hii]
            exact hB id' r hr ha hf
        | some nt =>
          dsimp only
          refine ⟨⟨?_, ?_⟩, ?_⟩
          · intro id' due' hdue'
            by_cases hii : id = id'
            · subst hii
              rw [scheduleReminder_tasks_self] at hdue'
              by_cases hf : DateTime.ltb now ({ d with target_time := nt } :
                  ReminderData).target_time = true
              · rw [if_pos hf] at hdue'
                exact ⟨{ d with target_time := nt },
                  by rw [scheduleReminder_reminders]
                     exact getVal_updVal_self _ _ _ d hget,
                  ha0, Option.some.inj hdue'⟩
              · rw [if_neg hf] at hdue'
                rw [getVal_delVal_self] at hdue'
                cases hdue'
            · rw [scheduleReminder_tasks_other _ _ _ _ _ hii,
                getVal_delVal_other _ _ _ hii] at hdue'
              obtain ⟨r1, hr1, ha1, htt1⟩ := hA id' due' hdue'
              exact ⟨r1, by
                rw [scheduleReminder_reminders, getVal_updVal_other _ _ _ _ hii]
                exact hr1, ha1, htt1⟩
          · intro id' r hr ha hf
            by_cases hii : id = id'
            · subst hii
              rw [scheduleReminder_reminders, getVal_updVal_self _ _ _ d hget] at hr
              obtain rfl : ({ d with target_time := nt } : ReminderData) = r :=
                Option.some.inj hr
              rw [scheduleReminder_tasks_self, if_pos hf]
            · rw [scheduleReminder_reminders, getVal_updVal_other _ _ _ _ hii] at hr
              rw [scheduleReminder_tasks_other _ _ _ _ _ hii,
                getVal_delVal_other _ _ _ hii]
              exact hB id' r hr ha hf
          · unfold WF
            rw [scheduleReminder_reminders]
            show ((updVal s.reminders id _).map Prod.fst).Nodup
            rw [keys_updVal]
            exact hw
      · rw [if_neg hrep]
        refine ⟨⟨?_, ?_⟩, keys_delVal _ _ hw⟩
        · intro id' due' hdue'
          by_cases hii : id = id'
          · subst hii
            rw [getVal_delVal_self] at hdue'
            cases hdue'
          · rw [getVal_delVal_other _ _ _ hii] at hdue'
            obtain ⟨r1, hr1, ha1, htt1⟩ := hA id' due' hdue'
            exact ⟨r1, by rw [getVal_delVal_other _ _ _ hii]; exact hr1, ha1, htt1⟩
        · intro id' r hr ha hf
          by_cases hii : id = id'
          · subst hii
            rw [getVal_delVal_self] at hr
            cases hr
          · rw [getVal_delVal_other _ _ _ hii] at hr
            rw [getVal_delVal_other _ _ _ hii]
            exact hB id' r hr ha hf

lemma inv_time_mono (now now' : DateTime) (s : PState)
    (hle : DateTime.leb now now' = true) (hi : Inv now s) : Inv now' s := by
  obtain ⟨hA, hB⟩ := hi
  refine ⟨hA, fun id r hr ha hf => hB id r hr ha ?_⟩
  simp only [DateTime.ltb, decide_eq_true_eq] at hf ⊢
  simp only [DateTime.leb, decide_eq_true_eq] at hle
  omega

lemma consistent_create (pr : Option DateTime) (now : DateTime) (sid c rep : String)
    (s : PState) (hw : WF s) (hA : taskConsistent s) :
    taskConsistent (setReminderLLM pr now sid c rep s).1 ∧
      WF (setReminderLLM pr now sid c rep s).1 := by
  unfold setReminderLLM
  cases pr with
  | none => exact ⟨hA, hw⟩
  | some t =>
    dsimp only
    by_cases hfut : DateTime.ltb now t = true
    · rw [if_pos hfut]
      dsimp only
      set id0 := sid ++ "_" ++ natStr now.key with hid0
      set d0 : ReminderData :=
        { sender_id := sid, content := c, target_time := t,
          repeat_type := rep, active := some true } with hd0
      refine ⟨?_, ?_⟩
      · intro id' due hdue
        by_cases hii : id0 = id'
        · subst hii
          rw [scheduleReminder_tasks_self] at hdue
          rw [if_pos hfut] at hdue
          exact ⟨d0, by rw [scheduleReminder_reminders]; exact getVal_setVal_self _ _ _,
            rfl, Option.some.inj hdue⟩
        · rw [scheduleReminder_tasks_other _ _ _ _ _ hii] at hdue
          obtain ⟨r0, hr0, ha0, htt⟩ := hA id' due hdue
          exact ⟨r0, by
            rw [scheduleReminder_reminders, getVal_setVal_other _ _ _ _ hii]
            exact hr0, ha0, htt⟩
      · unfold WF
        rw [scheduleReminder_reminders]
        exact keys_setVal _ _ _ hw
    · rw [if_neg hfut]
      exact ⟨hA, hw⟩

lemma consistent_delete (id sender : String) (s : PState)
    (hw : WF s) (hA : taskConsistent s) :
    taskConsistent (deleteReminder id sender s).1 ∧
      WF (deleteReminder id sender s).1 := by
  unfold deleteReminder
  by_cases h0 : id = ""
  · rw [if_pos h0]; exact ⟨hA, hw⟩
  rw [if_neg h0]
  cases hget : getVal s.reminders id with
  | none => exact ⟨hA, hw⟩
  | some d =>
    dsimp only
    by_cases hsend : d.sender_id ≠ sender
    · rw [if_pos hsend]; exact ⟨hA, hw⟩
    rw [if_neg hsend]
    refine ⟨?_, keys_delVal _ _ hw⟩
    intro id' due hdue
    by_cases hii : id = id'
    · subst hii
      rw [getVal_delVal_self] at hdue
      cases hdue
    · rw [getVal_delVal_other _ _ _ hii] at hdue
      obtain ⟨r0, hr0, ha0, htt⟩ := hA id' due hdue
      exact ⟨r0, by rw [getVal_delVal_other _ _ _ hii]; exact hr0, ha0, htt⟩

lemma consistent_fire (now : DateTime) (id : String) (s : PState)
    (hw : WF s) (hA : taskConsistent s) :
    taskConsistent (fireReminder now id s) ∧ WF (fireReminder now id s) := by
  unfold fireReminder
  cases htask : getVal s.tasks id with
  | none => exact ⟨hA, hw⟩
  | some due =>
    dsimp only
    by_cases hlt : DateTime.ltb now due = true
    · rw [if_pos hlt]; exact ⟨hA, hw⟩
    rw [if_neg hlt]
    obtain ⟨r0, hr0, ha0, htt0⟩ := hA id due htask
    have hA0 : taskConsistent { s with tasks := delVal s.tasks id } := by
      intro id' due' hdue'
      by_cases hii : id = id'
      · subst hii; rw [getVal_delVal_self] at hdue'; cases hdue'
      · rw [getVal_delVal_other _ _ _ hii] at hdue'
        exact hA id' due' hdue'
    cases hget : getVal s.reminders id with
    | none => rw [hget] at hr0; cases hr0
    | some d =>
      have hd : d = r0 := by rw [hget] at hr0; exact Option.some.inj hr0
      subst hd
      dsimp only
      by_cases hrep : d.repeat_type ≠ "不重复"
      · rw [if_pos hrep]
        unfold handleRepeatReminder
        cases hnext : computeNextTime d.repeat_type d.target_time with
        | none =>
          dsimp only
          exact ⟨hA0, hw⟩
        | some nt =>
          dsimp only
          refine ⟨?_, ?_⟩
          · intro id' due' hdue'
            by_cases hii : id = id'
            · subst hii
              rw [scheduleReminder_tasks_self] at hdue'
              by_cases hf : DateTime.ltb now ({ d with target_time := nt } :
                  ReminderData).target_time = true
              · rw [if_pos hf] at hdue'
                exact ⟨{ d with target_time := nt },
                  by rw [scheduleReminder_reminders]
                     exact getVal_updVal_self _ _ _ d hget,
                  ha0, Option.some.inj hdue'⟩
              · rw [if_neg hf] at hdue'
                rw [getVal_delVal_self] at hdue'
                cases hdue'
            · rw [scheduleReminder_tasks_other _ _ _ _ _ hii,
                getVal_delVal_other _ _ _ hii] at hdue'
              obtain ⟨r1, hr1, ha1, htt1⟩ := hA id' due' hdue'
              exact ⟨r1, by
                rw [scheduleReminder_reminders, getVal_updVal_other _ _ _ _ hii]
                exact hr1, ha1, htt1⟩
          · unfold WF
            rw [scheduleReminder_reminders]
            show ((updVal s.reminders id _).map Prod.fst).Nodup
            rw [keys_updVal]
            exact hw
      · rw [if_neg hrep]
        refine ⟨?_, keys_delVal _ _ hw⟩
        intro id' due' hdue'
        by_cases hii : id = id'
        · subst hii
          rw [getVal_delVal_self] at hdue'
          cases hdue'
        · rw [getVal_delVal_other _ _ _ hii] at hdue'
          obtain ⟨r1, hr1, ha1, htt1⟩ := hA id' due' hdue'
          exact ⟨r1, by rw [getVal_delVal_other _ _ _ hii]; exact hr1, ha1, htt1⟩

/-! ## Claim theorems -/

lemma tryChain_future (now : DateTime)
    (ps : List (DateTime → List Char → Option DateTime)) (s : List Char)
    (t : DateTime) (h : tryChain now ps s = some t) : DateTime.ltb now t = true := by
  induction ps with
  | nil => simp [tryChain] at h
  | cons p rest ih =>
    simp only [tryChain] at h
    cases hp : p now s with
    | none => rw [hp] at h; exact ih h
    | some r =>
      rw [hp] at h
      dsimp only at h
      by_cases hl : DateTime.ltb now r = true
      · rw [if_pos hl] at h
        rw [← Option.some.inj h]
        exact hl
      · rw [if_neg hl] at h
        exact ih h

/-- C3: whenever `parse_time_natural` succeeds, the returned timestamp is
strictly greater than `now`; it never returns a timestamp ≤ `now` for any
accepted phrase (each strategy result is returned only after passing the
`result > datetime.now()` guard of the driver loop, on either pass). -/
theorem C3_resolve_future (dp : List Char → Option DateTime) (now : DateTime)
    (s : List Char) (t : DateTime) (h : parseTimeNatural dp now s = some t) :
    DateTime.ltb now t = true := by
  unfold parseTimeNatural at h
  cases h1 : tryChain now (strategies dp) (preprocessTime now s) with
  | some r =>
    rw [h1] at h
    rw [← Option.some.inj h]
    exact tryChain_future _ _ _ _ h1
  | none =>
    rw [h1] at h
    exact tryChain_future _ _ _ _ h

/-- Witness for C3 at the concrete phrase `3天后` resolved at
2025-06-08 14:00. -/
theorem C3_resolve_future_witness :
    DateTime.ltb now0 ⟨2025, 6, 11, 14, 0, 0⟩ = true :=
  C3_resolve_future dpNone now0 "3天后".data ⟨2025, 6, 11, 14, 0, 0⟩ (by decide)

/-- A paused one-shot reminder due 2025-06-08 10:00 (fields: sender_id,
content, target_time, repeat_type, active). -/
def pausedRec : ReminderData :=
  ⟨"u", "meeting", ⟨2025, 6, 8, 10, 0, 0⟩, "不重复", some false⟩

/-- The state `暂停提醒` leaves behind: the paused record, no live task. -/
def pausedState : PState := ⟨[("u_1", pausedRec)], []⟩

/-- C1 counterexample: resuming that reminder at 14:00 — after its due time
has passed — is a public operation after which the record has
`active = true` but **no** live task exists for its id, so the claimed
invariant (`active=true` implies exactly one live task, after every public
operation) is false as stated. -/
theorem C1_counterexample :
    ¬ (∀ id r, getVal (step now0 (Op.resume "u_1" "u") pausedState).reminders id =
          some r → r.active.getD true = true →
        getVal (step now0 (Op.resume "u_1" "u") pausedState).tasks id ≠ none) :=
  fun hclaim =>
    (hclaim "u_1" ⟨"u", "meeting", ⟨2025, 6, 8, 10, 0, 0⟩, "不重复", some true⟩
      (by decide) (by decide)) (by decide)

/-- Which operations are the resume command; the `AttributeError` in the
source makes resume the one operation that cannot keep the stronger
direction of the invariant. -/
def Op.isResume : Op → Bool
  | .resume _ _ => true
  | _ => false

/-- C1 amended: what the paired store/scheduler mutations actually maintain.
(a) After **every** public operation (create, delete, pause, resume,
startup replay, fire): every live task in the scheduler's task map belongs
to a record with `active = true` (absent read as true) and carries exactly
that record's `due_at` — in particular a record with `active = false` never
has a live task, and the map keyed by id holds at most one handle per
reminder.
(b) The stronger direction of the claim — an active record whose `due_at`
is still in the future has exactly one live task — is preserved by every
operation **except resume**: resuming while `due_at` is future flips
`active` to true and then dies in the caught `AttributeError` (the missing
`MessageHandler._schedule_reminder`) before any scheduler call, and
resuming after `due_at` (the counterexample) also leaves the record
unscheduled.
(c) The invariant is stable as the clock advances between operations. -/
theorem C1_invariant_amended :
    (∀ (now : DateTime) (op : Op) (s : PState), WF s → taskConsistent s →
      taskConsistent (step now op s) ∧ WF (step now op s)) ∧
    (∀ (now : DateTime) (op : Op) (s : PState), op.isResume = false → WF s →
      Inv now s → Inv now (step now op s) ∧ WF (step now op s)) ∧
    (∀ (now now' : DateTime) (s : PState), DateTime.leb now now' = true →
      Inv now s → Inv now' s) := by
  refine ⟨?_, ?_, ?_⟩
  · intro now op s hw hA
    cases op with
    | create pr sid c rep => exact consistent_create pr now sid c rep s hw hA
    | del id sender => exact consistent_delete id sender s hw hA
    | pause id sender => exact consistent_toggle now id sender false s hw hA
    | resume id sender => exact consistent_toggle now id sender true s hw hA
    | replay =>
      obtain ⟨⟨hA2, hB2⟩, hw2⟩ := inv_replay now s hw
      exact ⟨hA2, hw2⟩
    | fire id => exact consistent_fire now id s hw hA
  · intro now op s hnr hw hi
    cases op with
    | create pr sid c rep => exact inv_create pr now sid c rep s hw hi
    | del id sender => exact inv_delete id sender s now hw hi
    | pause id sender => exact inv_pause now id sender s hw hi
    | resume id sender => exact Bool.noConfusion hnr
    | replay => exact inv_replay now s hw
    | fire id => exact inv_fire now id s hw hi
  · intro now now' s hle hi
    exact inv_time_mono now now' s hle hi

/-- Witness for the amended C1 invariant: pausing on the empty state (which
trivially satisfies the invariant, and is not a resume) preserves it. -/
theorem C1_invariant_amended_witness :
    Inv now0 (step now0 (Op.pause "u_1" "u") { reminders := [], tasks := [] }) :=
  (C1_invariant_amended.2.1 now0 (Op.pause "u_1" "u") { reminders := [], tasks := [] }
    rfl (by simp [WF])
    ⟨fun id due hdue => by simp [getVal] at hdue,
     fun id r hr => by simp [getVal] at hr⟩).1

/-- C4: at now = Sunday 2025-06-08 14:00 the phrase `周六晚上9点`
("Saturday evening 9") resolves to **09:00** of the next Saturday, not the
claimed 21:00: the weekday strategy runs before the manual AM/PM strategy,
extracts the bare digit 9 with the permissive regex, ignores the evening
marker, and its result (2025-06-14 09:00) passes the future guard, so the
PM conversion of `_parse_time_manual` is never reached.  (The value is
independent of the external `dateparser`, which sits after the weekday
strategy; it is instantiated with the constantly-`none` stub here.) -/
theorem C4_weekday_pm_divergence :
    parseTimeNatural dpNone now0 "周六晚上9点".data = some ⟨2025, 6, 14, 9, 0, 0⟩ ∧
    parseTimeNatural dpNone now0 "周六晚上9点".data ≠ some ⟨2025, 6, 14, 21, 0, 0⟩ := by
  constructor
  · decide
  · decide

/-- C5: recurrence arithmetic of `_handle_repeat_reminder`: daily advances
`due_at` by exactly one day, weekly by exactly seven, monthly to the same
day-of-month of the next month with the December case rolling to month 1 of
year+1; for a month-end date whose successor month is shorter (Jan 31) the
`datetime.replace` raises, the surrounding `except` swallows it, and the
operation returns with the state unchanged — no crash. -/
theorem C5_recurrence :
    (∀ t : DateTime, computeNextTime "每天" t = some (t.addDays 1)) ∧
    (∀ t : DateTime, computeNextTime "每周" t = some (t.addDays 7)) ∧
    (∀ t : DateTime, t.month = 12 →
      computeNextTime "每月" t = some { t with year := t.year + 1, month := 1 }) ∧
    (∀ t : DateTime, t.month < 12 → t.day ≤ daysInMonth t.year (t.month + 1) →
      computeNextTime "每月" t = some { t with month := t.month + 1 }) ∧
    (computeNextTime "每月" ⟨2025, 1, 31, 9, 0, 0⟩ = none) ∧
    (∀ (now : DateTime) (id : String) (s : PState) (d : ReminderData),
      d.repeat_type = "每月" → d.target_time = ⟨2025, 1, 31, 9, 0, 0⟩ →
      handleRepeatReminder now id d s = s) := by
  refine ⟨fun t => ?_, fun t => ?_, fun t h => ?_, fun t h1 h2 => ?_, by decide,
    fun now id s d h1 h2 => ?_⟩
  · unfold computeNextTime
    rw [if_pos rfl]
  · unfold computeNextTime
    rw [if_neg (by decide), if_pos rfl]
  · unfold computeNextTime
    rw [if_neg (by decide), if_neg (by decide), if_pos rfl, if_pos h]
  · unfold computeNextTime
    rw [if_neg (by decide), if_neg (by decide), if_pos rfl,
      if_neg (by omega), if_pos h2]
  · unfold handleRepeatReminder
    rw [h1, h2]
    rw [show computeNextTime "每月" ⟨2025, 1, 31, 9, 0, 0⟩ = none from by decide]

/-- Witness for C5: a monthly reminder due 2025-12-31 09:00 advances to
2026-01-31 09:00 (December rollover). -/
theorem C5_recurrence_witness :
    computeNextTime "每月" ⟨2025, 12, 31, 9, 0, 0⟩ = some ⟨2026, 1, 31, 9, 0, 0⟩ :=
  C5_recurrence.2.2.1 ⟨2025, 12, 31, 9, 0, 0⟩ rfl

/-- C6: with N = 2 and now = 2025-06-08 14:00, the phrase `2小时后`
("2 hours later") does **not** resolve to now + 2 hours = 16:00:
preprocessing rewrites `小时` to `时`, the hour-offset regex `(\d+)小时后`
then misses, and the earlier specific-time strategy reads the bare `2` as
a 02:00 time-of-day, rolls to the next day and returns 2025-06-09 02:00,
which passes the future guard, so the raw-string second pass that would
have matched the hour offset is never reached.  (Strategy 3 returns before
the external `dateparser` is consulted, so the value is independent of it.) -/
theorem C6_offset_divergence :
    parseTimeNatural dpNone now0 "2小时后".data = some ⟨2025, 6, 9, 2, 0, 0⟩ ∧
    DateTime.addHours now0 2 = ⟨2025, 6, 8, 16, 0, 0⟩ ∧
    parseTimeNatural dpNone now0 "2小时后".data ≠ some (DateTime.addHours now0 2) := by
  refine ⟨by decide, by decide, by decide⟩

/-- C8: `save_reminders` followed by `load_reminders` into a fresh store
reproduces the identical mapping of ids to records. -/
theorem C8_save_load_roundtrip (rs : List (String × StoredReminder)) :
    loadStore (saveStore rs) = rs := by
  have h : decodeEntries (rs.map fun p => (p.1, encodeReminder p.2)) = some rs := by
    induction rs with
    | nil => rfl
    | cons p rest ih =>
      obtain ⟨k, r⟩ := p
      simp only [List.map_cons, decodeEntries, decode_encode, ih]
  simp only [loadStore, saveStore, h]

/-- C9: when the resolver yields nothing, or a time that is not strictly
future, `set_reminder_llm` returns the corresponding error result and the
state (store and task map) is exactly the input state — nothing is added,
persisted, or scheduled. -/
theorem C9_create_failure_unchanged (now : DateTime) (s : PState)
    (senderId content repeatT : String) :
    setReminderLLM none now senderId content repeatT s = (s, .unresolvable) ∧
    (∀ t : DateTime, DateTime.ltb now t = false →
      setReminderLLM (some t) now senderId content repeatT s = (s, .timePast)) := by
  refine ⟨rfl, fun t ht => ?_⟩
  unfold setReminderLLM
  dsimp only
  rw [if_neg (by rw [ht]; exact fun hc => Bool.false_ne_true hc)]

/-- Witness for C9: creating with the already-past time 2025-06-08 10:00 at
now = 14:00 leaves the empty state unchanged and reports `timePast`. -/
theorem C9_create_failure_unchanged_witness :
    setReminderLLM (some ⟨2025, 6, 8, 10, 0, 0⟩) now0 "u" "meeting" "不重复"
      ⟨[], []⟩ = (⟨[], []⟩, .timePast) :=
  (C9_create_failure_unchanged now0 ⟨[], []⟩ "u" "meeting" "不重复").2
    ⟨2025, 6, 8, 10, 0, 0⟩ (by decide)

/-- C10: a persisted record lacking the `active` field is treated as
active: the owner's list display shows the active marker for it, and
startup replay schedules it exactly when its due time is still future. -/
theorem C10_missing_active_defaults (d : ReminderData) (hd : d.active = none) :
    listMarker d = "✅" ∧
    (∀ (now : DateTime) (rs : List (String × ReminderData)) (id : String),
      (rs.map Prod.fst).Nodup → getVal rs id = some d →
      getVal (startupReplay now rs).tasks id =
        (if DateTime.ltb now d.target_time then some d.target_time else none)) := by
  constructor
  · simp [listMarker, hd]
  · intro now rs id hnd hid
    show getVal (replayTasks now rs []) id = _
    rw [replayTasks_getVal now rs [] id hnd, hid]
    dsimp only
    rw [hd]
    by_cases hf : DateTime.ltb now d.target_time = true
    · rw [if_pos hf, if_pos (by rw [hf]; rfl)]
    · rw [if_neg hf, if_neg (by rw [Bool.not_eq_true] at hf; rw [hf]; exact
        fun hc => Bool.false_ne_true hc)]
      rfl

/-- A record without the `active` field, due 2025-06-11 09:00. -/
def legacyRec : ReminderData :=
  ⟨"u", "meeting", ⟨2025, 6, 11, 9, 0, 0⟩, "不重复", none⟩

/-- Witness for C10: replay at 2025-06-08 14:00 schedules the legacy record
(whose due time is future), and its list marker is the active one. -/
theorem C10_missing_active_defaults_witness :
    listMarker legacyRec = "✅" ∧
    getVal (startupReplay now0 [("r1", legacyRec)]).tasks "r1" =
      (if DateTime.ltb now0 legacyRec.target_time then some legacyRec.target_time
       else none) :=
  ⟨(C10_missing_active_defaults legacyRec rfl).1,
   (C10_missing_active_defaults legacyRec rfl).2 now0 [("r1", legacyRec)] "r1"
     (by simp) rfl⟩

/-- An active reminder of `u` due 2025-06-10 09:00 — still in the future at
the 2025-06-08 14:00 scenario moment. -/
def c2Rec : ReminderData :=
  ⟨"u", "meeting", ⟨2025, 6, 10, 9, 0, 0⟩, "不重复", some true⟩

/-- C2: the failing half of the claim, evaluated at a concrete input.
Pausing `c2Rec` and then resuming it at 2025-06-08 14:00, while its
`due_at` 2025-06-10 09:00 is **still in the future** (last conjunct):
the resume leaves **no** live task and replies with the *failure* message,
not success — the source reaches `self._schedule_reminder(...)` on
`MessageHandler`, which has no such method (it exists only on
`QReminderPlugin`), so the `AttributeError` is caught by the `except` and
`"❌ 操作失败，请重试"` is sent, after `active=True` was already stored
(third conjunct).  The claim's after-expiry half does hold: resuming the
expired `pausedRec` creates no task and still replies success (conjuncts
five and six). -/
theorem C2_resume_divergence :
    (toggleReminder now0 "r1" "u" true
        (toggleReminder now0 "r1" "u" false ⟨[("r1", c2Rec)], []⟩).1).2 =
      Reply.error ∧
    getVal (toggleReminder now0 "r1" "u" true
        (toggleReminder now0 "r1" "u" false ⟨[("r1", c2Rec)], []⟩).1).1.tasks
        "r1" = none ∧
    getVal (toggleReminder now0 "r1" "u" true
        (toggleReminder now0 "r1" "u" false ⟨[("r1", c2Rec)], []⟩).1).1.reminders
        "r1" = some { c2Rec with active := some true } ∧
    DateTime.ltb now0 c2Rec.target_time = true ∧
    (toggleReminder now0 "u_1" "u" true pausedState).2 =
      Reply.resumed pausedRec.content ∧
    getVal (toggleReminder now0 "u_1" "u" true pausedState).1.tasks "u_1" =
      none := by
  refine ⟨by decide, by decide, by decide, by decide, by decide, by decide⟩

lemma findWeekday_lt (s : List Char) (wd : Nat) (h : findWeekday s = some wd) :
    wd < 7 := by
  unfold findWeekday at h
  cases hf : List.find? (fun p => hasSub p.1 s) weekdayPairs with
  | none => rw [hf] at h; cases h
  | some p =>
    rw [hf] at h
    have hm : p ∈ weekdayPairs := List.mem_of_find?_eq_some hf
    have hall : ∀ q ∈ weekdayPairs, q.2 < 7 := by decide
    simp only [Option.map] at h
    rw [← Option.some.inj h]
    exact hall p hm

/-- C7: whenever the weekday strategy resolves a phrase, the resolved
date falls on the weekday requested by the (first) weekday name contained
in the phrase, and its date is strictly after `now`'s date — never the
same day, even when `now` already falls on that weekday. -/
theorem C7_weekday_strict_future (now : DateTime) (s : List Char) (t : DateTime)
    (hv : now.Valid) (h : parseWeekdayTime now s = some t) :
    ∃ wd, findWeekday s = some wd ∧ t.weekday = wd ∧ now.ordinal < t.ordinal := by
  unfold parseWeekdayTime at h
  cases hw : findWeekday s with
  | none => rw [hw] at h; cases h
  | some wd =>
    rw [hw] at h
    dsimp only at h
    cases ht : findTime s with
    | none => rw [ht] at h; cases h
    | some pr =>
      obtain ⟨hh, mo⟩ := pr
      rw [ht] at h
      dsimp only at h
      unfold combineDateTime at h
      by_cases hok : hh < 24 ∧ mo.getD 0 < 60
      · rw [if_pos hok] at h
        have htt := Option.some.inj h
        set k := (if now.weekday < wd then wd - now.weekday
          else wd + 7 - now.weekday) with hk
        have hgnw : getNextWeekday now wd = now.addDays k := rfl
        have hto : t.ordinal = (now.addDays k).ordinal := by
          rw [← htt, hgnw]
          rfl
        obtain ⟨-, ho2, -, -, -⟩ := addDays_spec now hv k
        have hlt7 := findWeekday_lt s wd hw
        have hord := valid_ordinal_pos now hv
        have hnd : now.weekday < 7 := by
          unfold DateTime.weekday
          exact Nat.mod_lt _ (by omega)
        have hx : now.weekday = (now.ordinal - 1) % 7 := rfl
        have hk1 : 1 ≤ k := by
          rw [hk]
          split_ifs <;> omega
        refine ⟨wd, rfl, ?_, ?_⟩
        · show (t.ordinal - 1) % 7 = wd
          rw [hto, ho2]
          by_cases hc : now.weekday < wd
          · rw [if_pos hc] at hk
            rw [hx] at hk hc
            omega
          · rw [if_neg hc] at hk
            rw [hx] at hk hc
            omega
        · rw [hto, ho2]
          omega
      · rw [if_neg hok] at h
        cases h

/-- Witness for C7: `周三8点` at Sunday 2025-06-08 14:00 resolves to
Wednesday 2025-06-11 08:00 — on the requested weekday, strictly later. -/
theorem C7_weekday_strict_future_witness :
    ∃ wd, findWeekday "周三8点".data = some wd ∧
      (⟨2025, 6, 11, 8, 0, 0⟩ : DateTime).weekday = wd ∧
      now0.ordinal < (⟨2025, 6, 11, 8, 0, 0⟩ : DateTime).ordinal :=
  C7_weekday_strict_future now0 "周三8点".data ⟨2025, 6, 11, 8, 0, 0⟩
    (by decide) (by decide)

end QReminder
